import Mathlib

/-!
# Verification of the progressive tax-bracket evaluator and drawdown solver

A shallow embedding of `tax_brackets.py` and `igwad.py`.  Money amounts and
rates are modelled as exact rationals (`ℚ`); the `float('inf')` upper bound of
the last tax range is modelled by `⊤ : WithTop ℚ`.  Fallible indexing in
`fast_tax` is modelled with `Option`; Python exceptions in the drawdown solver
are modelled by dedicated outcome constructors.
-/

/-- `TaxRange.__init__`: a taxable range `(lower_bound, upper_bound]` with a
marginal rate `percent`.  `upper_bound = ⊤` models `float('inf')`. -/
structure TaxRange where
  lower_bound : ℚ
  upper_bound : WithTop ℚ
  percent : ℚ
deriving DecidableEq

/-- The two assertions of `TaxRange.__init__`:
`upper_bound >= lower_bound` and `0 <= percent <= 1`. -/
def TaxRange.initOK (tr : TaxRange) : Prop :=
  (tr.lower_bound : WithTop ℚ) ≤ tr.upper_bound ∧ 0 ≤ tr.percent ∧ tr.percent ≤ 1

instance (tr : TaxRange) : Decidable tr.initOK := by
  unfold TaxRange.initOK; infer_instance

/-- `TaxRange.amount_in_range`:
`min(max(total - lower_bound, 0), upper_bound - lower_bound)`.
For an infinite upper bound the cap `upper_bound - lower_bound` is infinite and
the `min` is the identity on the (finite, non-negative) first argument. -/
def TaxRange.amount_in_range (tr : TaxRange) (total : ℚ) : ℚ :=
  match tr.upper_bound with
  | ⊤ => max (total - tr.lower_bound) 0
  | (u : ℚ) => min (max (total - tr.lower_bound) 0) (u - tr.lower_bound)

/-- `TaxRange.tax`: `amount_in_range(taxable_amount) * percent`. -/
def TaxRange.tax (tr : TaxRange) (taxable_amount : ℚ) : ℚ :=
  tr.amount_in_range taxable_amount * tr.percent

/-- One entry `(x.upper_bound - x.lower_bound) * x.percent` of
`range_tax_amounts` in `TaxBracket.__init__`.  Only non-final ranges, whose
upper bound is finite in a valid bracket, are ever mapped through this; the
`⊤` branch is arbitrary. -/
def TaxRange.full_range_tax (tr : TaxRange) : ℚ :=
  match tr.upper_bound with
  | ⊤ => 0
  | (u : ℚ) => (u - tr.lower_bound) * tr.percent

/-- `TaxResult.__init__`: all-zero fields, empty breakdown. -/
structure TaxResult where
  full_amount : ℚ
  taxable_amount : ℚ
  margin : ℚ
  tax_paid : ℚ
  breakdown : List ℚ
deriving DecidableEq

/-- `TaxResult.remaining`: `full_amount - tax_paid`. -/
def TaxResult.remaining (t : TaxResult) : ℚ :=
  t.full_amount - t.tax_paid

/-- `TaxResult.real_taxable_amount`: `max(taxable_amount, 0)`. -/
def TaxResult.real_taxable_amount (t : TaxResult) : ℚ :=
  max t.taxable_amount 0

/-- `TaxResult.real_effective_tax_rate`. -/
def TaxResult.real_effective_tax_rate (t : TaxResult) : ℚ :=
  if t.full_amount = 0 then 0 else t.tax_paid / t.full_amount

/-- `bisect.bisect_left(tax_ranges, taxable_amount)` with
`TaxRange.__lt__ (self, other) := self.upper_bound < other`: on a list sorted
by that order it returns the first index `i` with
`not (tax_ranges[i].upper_bound < x)`, i.e. the number of leading ranges whose
upper bound is below `x` (bisect_left's partition contract). -/
def bisect_left (rs : List TaxRange) (x : ℚ) : ℕ :=
  match rs with
  | [] => 0
  | tr :: rest => if tr.upper_bound < (x : WithTop ℚ) then bisect_left rest x + 1 else 0

/-- `np.cumsum` on a list of rationals. -/
def cumsum : List ℚ → List ℚ
  | [] => []
  | a :: rest => a :: (cumsum rest).map (a + ·)

/-- `TaxBracket.__init__`'s stored tuple of ranges. -/
structure TaxBracket where
  tax_ranges : List TaxRange
deriving DecidableEq

/-- The assertions of `TaxBracket.__init__`: first lower bound `0`, last upper
bound infinity, and no gap between consecutive ranges (`range(len - 1)` loop).
An empty range tuple also fails construction (`tax_ranges[0]` raises). -/
def TaxBracket.initOK (tb : TaxBracket) : Prop :=
  tb.tax_ranges.head?.map TaxRange.lower_bound = some 0 ∧
  tb.tax_ranges.getLast?.map TaxRange.upper_bound = some ⊤ ∧
  ∀ i < tb.tax_ranges.length - 1,
    (tb.tax_ranges.get? i).map TaxRange.upper_bound =
      (tb.tax_ranges.get? (i + 1)).map (fun tr => (tr.lower_bound : WithTop ℚ))

instance (tb : TaxBracket) : Decidable tb.initOK := by
  unfold TaxBracket.initOK; infer_instance

/-- A validly constructed bracket: all its `TaxRange`s passed their own
constructor assertions, and the bracket constructor assertions passed. -/
def TaxBracket.valid (tb : TaxBracket) : Prop :=
  (∀ tr ∈ tb.tax_ranges, tr.initOK) ∧ tb.initOK

instance (tb : TaxBracket) : Decidable tb.valid := by
  unfold TaxBracket.valid; infer_instance

/-- `self.cum_range_tax_amounts = np.cumsum([0.] + [... for x in tax_ranges[:-1]])`. -/
def TaxBracket.cum_range_tax_amounts (tb : TaxBracket) : List ℚ :=
  cumsum (0 :: tb.tax_ranges.dropLast.map TaxRange.full_range_tax)

/-- The `for tr in self.tax_ranges` loop of `TaxBracket.tax` on the
`margin == 0` path (the only path that reaches the loop): builds the breakdown
list and the accumulated `tax_paid`, stopping at the first range with
`amount_in_range == 0`.  Each contribution is
`tr.tax(taxable_amount + margin) - tr.tax(margin)` with `margin = 0`. -/
def taxWalk (taxable : ℚ) : List TaxRange → List ℚ × ℚ
  | [] => ([], 0)
  | tr :: rest =>
    if tr.amount_in_range taxable = 0 then ([], 0)
    else
      ((tr.tax taxable - tr.tax 0) :: (taxWalk taxable rest).1,
        (tr.tax taxable - tr.tax 0) + (taxWalk taxable rest).2)

/-- `TaxBracket.tax(full_amount, deduction, margin=0)` specialised to
`margin = 0` (the two recursive calls in the `margin > 0` branch are exactly
this specialisation, since they use the default margin). -/
def TaxBracket.tax0 (tb : TaxBracket) (full_amount deduction : ℚ) : TaxResult :=
  let taxable := full_amount - deduction
  if taxable ≤ 0 then ⟨full_amount, taxable, 0, 0, []⟩
  else ⟨full_amount, taxable, 0,
    (taxWalk taxable tb.tax_ranges).2, (taxWalk taxable tb.tax_ranges).1⟩

/-- `TaxBracket.tax(full_amount, deduction, margin)`.  Field order of the
result: full_amount, taxable_amount, margin, tax_paid, breakdown. -/
def TaxBracket.tax (tb : TaxBracket) (full_amount deduction margin : ℚ) : TaxResult :=
  let taxable := full_amount - deduction
  if taxable + margin ≤ 0 ∨ margin < 0 then ⟨full_amount, taxable, margin, 0, []⟩
  else if 0 < margin then
    ⟨full_amount, taxable, margin,
      (tb.tax0 (full_amount + margin) deduction).tax_paid -
        (tb.tax0 margin deduction).tax_paid, []⟩
  else
    ⟨full_amount, taxable, margin,
      (taxWalk taxable tb.tax_ranges).2, (taxWalk taxable tb.tax_ranges).1⟩

/-- `TaxBracket.fast_tax` specialised to `margin = 0` (as called recursively in
its `margin > 0` branch).  Out-of-range indexing of `tax_ranges` or of the
cumulative array — an `IndexError` in Python — is modelled as `none`. -/
def TaxBracket.fast_tax0 (tb : TaxBracket) (full_amount deduction : ℚ) : Option ℚ :=
  let taxable := full_amount - deduction
  if taxable ≤ 0 then some 0
  else
    match tb.tax_ranges.get? (bisect_left tb.tax_ranges taxable),
        tb.cum_range_tax_amounts.get? (bisect_left tb.tax_ranges taxable) with
    | some tr, some c => some (c + (taxable - tr.lower_bound) * tr.percent)
    | _, _ => none

/-- `TaxBracket.fast_tax(full_amount, deduction, margin)`. -/
def TaxBracket.fast_tax (tb : TaxBracket) (full_amount deduction margin : ℚ) : Option ℚ :=
  let taxable := full_amount - deduction
  if taxable + margin ≤ 0 ∨ margin < 0 then some 0
  else if 0 < margin then
    match tb.fast_tax0 (margin + full_amount) deduction, tb.fast_tax0 margin deduction with
    | some a, some b => some (a - b)
    | _, _ => none
  else tb.fast_tax0 full_amount deduction

/-- Outcome of `TaxBracket.reverse_tax`: an early return inside the loop
(`converged`), or falling off the loop, logging the warning and returning the
last guess (`degraded`).  Both carry the returned value — the function never
raises. -/
inductive ReverseTaxResult where
  | converged (guess : ℚ)
  | degraded (guess : ℚ)
deriving DecidableEq

/-- The `for i in range(iters)` loop of `TaxBracket.reverse_tax`:
`leftover = tax(guess, deduction, margin).remaining(); off = final - leftover;
guess += off; if abs(off) < epsilon: return guess`.  Fuel counts the remaining
iterations. -/
def reverseTaxLoop (tb : TaxBracket) (final_amount deduction margin ε : ℚ) :
    ℕ → ℚ → ReverseTaxResult
  | 0, guess => .degraded guess
  | fuel + 1, guess =>
    let leftover := (tb.tax guess deduction margin).remaining
    let off := final_amount - leftover
    if |off| < ε then .converged (guess + off)
    else reverseTaxLoop tb final_amount deduction margin ε fuel (guess + off)

/-- `TaxBracket.reverse_tax(final_amount, deduction, margin=0, epsilon=1e-2,
iters=20)`; the Python defaults are `ε = 1/100` and `iters = 20`.  Seeds the
iteration with `guess = final_amount`. -/
def TaxBracket.reverse_tax (tb : TaxBracket) (final_amount deduction margin ε : ℚ)
    (iters : ℕ) : ReverseTaxResult :=
  reverseTaxLoop tb final_amount deduction margin ε iters final_amount

/-- The unconditional guess iteration of `reverse_tax`: what the running
`guess` variable equals after `n` loop iterations when no early return fires. -/
def reverseGuessIter (tb : TaxBracket) (final_amount deduction margin : ℚ) :
    ℕ → ℚ → ℚ
  | 0, guess => guess
  | fuel + 1, guess =>
    reverseGuessIter tb final_amount deduction margin fuel
      (guess + (final_amount - (tb.tax guess deduction margin).remaining))

/-- `igwad(starting_amount, years, dist, return_rate)`:
`years` iterations of `amount -= dist; amount *= (1 + return_rate)`. -/
def igwad (starting_amount : ℚ) (years : ℕ) (dist return_rate : ℚ) : ℚ :=
  match years with
  | 0 => starting_amount
  | y + 1 => igwad ((starting_amount - dist) * (1 + return_rate)) y dist return_rate

/-- Terminal outcomes of `find_optimal_distribution`: the early `return dist`
(`converged`), the two `raise RecursionError` sites (`diverged`, `exhausted`),
and the `ZeroDivisionError` raised by the floor-withdrawal formula
`starting_amount / (1 / return_rate + 1)` when `1 / return_rate + 1 == 0`,
i.e. when `return_rate == -1`. -/
inductive FodOutcome where
  | converged (dist : ℚ)
  | diverged
  | exhausted
  | divisionError
deriving DecidableEq

/-- The `for i in range(iters)` loop of `find_optimal_distribution`.
`gk` is `gamma * kappa`; the loop state is `(prior_guess, prior_ending)`,
fuel counts remaining iterations.  Checks divergence
(`abs(amount) > abs(prior_ending)`) before convergence (`abs(amount) < ε`),
as the source does. -/
def fodLoop (starting_amount return_rate ε gk min_dist : ℚ) (years : ℕ) :
    ℕ → ℚ → ℚ → FodOutcome
  | 0, _, _ => .exhausted
  | fuel + 1, prior_guess, prior_ending =>
    let guess := prior_guess + prior_ending / gk
    let dist := min_dist + guess
    let amount := igwad starting_amount years dist return_rate
    if |prior_ending| < |amount| then .diverged
    else if |amount| < ε then .converged dist
    else fodLoop starting_amount return_rate ε gk min_dist years fuel guess amount

/-- `find_optimal_distribution(starting_amount, return_rate, years, iters=5000,
epsilon=0.01)`.  The calibration constants `gamma = 0.8805 * 8629272 **
return_rate` and `kappa = 0.6444 * 1.1543 ** years` are real-valued powers with
no rational closed form; they enter the model as parameters (they only scale
the correction step `prior_ending / (gamma * kappa)`).  `min_dist` is `0` when
`return_rate == 0`, else `starting_amount / (1 / return_rate + 1)`; the latter
division raises `ZeroDivisionError` in Python when `1 / return_rate + 1 == 0`
(`return_rate = -1`), modelled by the `divisionError` outcome.
Initial state: `prior_guess = 0`, `prior_ending = starting_amount`. -/
def find_optimal_distribution (starting_amount return_rate : ℚ) (years : ℕ)
    (gamma kappa : ℚ) (iters : ℕ) (ε : ℚ) : FodOutcome :=
  if return_rate ≠ 0 ∧ 1 / return_rate + 1 = 0 then .divisionError
  else
    let min_dist := if return_rate = 0 then 0 else starting_amount / (1 / return_rate + 1)
    fodLoop starting_amount return_rate ε (gamma * kappa) min_dist years iters 0 starting_amount

/-- `ZERO_TAX = TaxBracket(TaxRange(0, float('inf'), 0))`. -/
def ZERO_TAX : TaxBracket := ⟨[⟨0, ⊤, 0⟩]⟩

/-- A flat 10% bracket covering `[0, ∞)`; passes all construction asserts. -/
def flatB : TaxBracket := ⟨[⟨0, ⊤, 1/10⟩]⟩

/-- A two-range bracket: 10% up to 100, then 20%; strictly increasing bounds. -/
def twoB : TaxBracket := ⟨[⟨0, (100 : ℚ), 1/10⟩, ⟨100, ⊤, 1/5⟩]⟩

/-- A bracket containing a zero-width middle range `(100, 100]`.  It passes
every construction assert (`upper_bound >= lower_bound` is not strict). -/
def zwB : TaxBracket := ⟨[⟨0, (100 : ℚ), 1/10⟩, ⟨100, (100 : ℚ), 0⟩, ⟨100, ⊤, 1/5⟩]⟩

/-- The spec's §3 invariant for a bracket, stated structurally: a non-empty,
contiguous, gapless chain of ranges covering `[0, ∞)`. -/
def TaxBracket.specValid (tb : TaxBracket) : Prop :=
  match tb.tax_ranges with
  | [] => False
  | first :: rest =>
    first.lower_bound = 0 ∧
    ((first :: rest).getLast (List.cons_ne_nil first rest)).upper_bound = ⊤ ∧
    List.Chain' (fun a b => a.upper_bound = (b.lower_bound : WithTop ℚ)) (first :: rest)

/-! ## Basic facts about `TaxRange.amount_in_range` -/

lemma TaxRange.amount_in_range_top {tr : TaxRange} (h : tr.upper_bound = ⊤) (x : ℚ) :
    tr.amount_in_range x = max (x - tr.lower_bound) 0 := by
  unfold TaxRange.amount_in_range
  rw [h]

lemma TaxRange.amount_in_range_coe {tr : TaxRange} {u : ℚ}
    (h : tr.upper_bound = (u : WithTop ℚ)) (x : ℚ) :
    tr.amount_in_range x = min (max (x - tr.lower_bound) 0) (u - tr.lower_bound) := by
  unfold TaxRange.amount_in_range
  rw [h]

lemma TaxRange.full_range_tax_coe {tr : TaxRange} {u : ℚ}
    (h : tr.upper_bound = (u : WithTop ℚ)) :
    tr.full_range_tax = (u - tr.lower_bound) * tr.percent := by
  unfold TaxRange.full_range_tax
  rw [h]

lemma TaxRange.le_of_initOK {tr : TaxRange} (h : tr.initOK) {u : ℚ}
    (hu : tr.upper_bound = (u : WithTop ℚ)) : tr.lower_bound ≤ u := by
  have h1 := h.1
  rw [hu] at h1
  exact_mod_cast h1

lemma TaxRange.amount_nonneg {tr : TaxRange} (h : tr.initOK) (x : ℚ) :
    0 ≤ tr.amount_in_range x := by
  cases hu : tr.upper_bound with
  | top => rw [tr.amount_in_range_top hu]; exact le_max_right _ _
  | coe u =>
    rw [tr.amount_in_range_coe hu]
    exact le_min (le_max_right _ _) (by have := tr.le_of_initOK h hu; linarith)

lemma TaxRange.amount_mono (tr : TaxRange) {x₁ x₂ : ℚ} (h : x₁ ≤ x₂) :
    tr.amount_in_range x₁ ≤ tr.amount_in_range x₂ := by
  cases hu : tr.upper_bound with
  | top =>
    rw [tr.amount_in_range_top hu, tr.amount_in_range_top hu]
    exact max_le_max (by linarith) le_rfl
  | coe u =>
    rw [tr.amount_in_range_coe hu, tr.amount_in_range_coe hu]
    exact min_le_min (max_le_max (by linarith) le_rfl) le_rfl

lemma TaxRange.amount_lipschitz (tr : TaxRange) {x₁ x₂ : ℚ} (h : x₁ ≤ x₂) :
    tr.amount_in_range x₂ - tr.amount_in_range x₁ ≤ x₂ - x₁ := by
  cases hu : tr.upper_bound with
  | top =>
    rw [tr.amount_in_range_top hu, tr.amount_in_range_top hu]
    rcases le_total (x₁ - tr.lower_bound) 0 with h1 | h1 <;>
      rcases le_total (x₂ - tr.lower_bound) 0 with h2 | h2 <;>
      rw [max_def, max_def] <;> split_ifs <;> linarith
  | coe u =>
    rw [tr.amount_in_range_coe hu, tr.amount_in_range_coe hu]
    rw [max_def, max_def, min_def, min_def]
    split_ifs <;> linarith

lemma TaxRange.amount_eq_zero_of_le_lower {tr : TaxRange} (h : tr.initOK) {x : ℚ}
    (hx : x ≤ tr.lower_bound) : tr.amount_in_range x = 0 := by
  cases hu : tr.upper_bound with
  | top => rw [tr.amount_in_range_top hu, max_eq_right (by linarith)]
  | coe u =>
    have := tr.le_of_initOK h hu
    rw [tr.amount_in_range_coe hu, max_eq_right (by linarith), min_eq_left (by linarith)]

lemma TaxRange.amount_le_max (tr : TaxRange) (x : ℚ) :
    tr.amount_in_range x ≤ max (x - tr.lower_bound) 0 := by
  cases hu : tr.upper_bound with
  | top => rw [tr.amount_in_range_top hu]
  | coe u => rw [tr.amount_in_range_coe hu]; exact min_le_left _ _

lemma TaxRange.amount_le_cap {tr : TaxRange} {u : ℚ}
    (hu : tr.upper_bound = (u : WithTop ℚ)) (x : ℚ) :
    tr.amount_in_range x ≤ u - tr.lower_bound := by
  rw [tr.amount_in_range_coe hu]
  exact min_le_right _ _

lemma TaxRange.amount_eq_cap {tr : TaxRange} (h : tr.initOK) {u : ℚ}
    (hu : tr.upper_bound = (u : WithTop ℚ)) {x : ℚ} (hx : u ≤ x) :
    tr.amount_in_range x = u - tr.lower_bound := by
  have hlu := tr.le_of_initOK h hu
  rw [tr.amount_in_range_coe hu, max_eq_left (by linarith), min_eq_right (by linarith)]

lemma TaxRange.amount_head_bound {tr : TaxRange} (h : tr.initOK) {u : ℚ}
    (hu : tr.upper_bound = (u : WithTop ℚ)) {x₁ x₂ : ℚ} (h1 : x₁ ≤ u) :
    tr.amount_in_range x₂ - tr.amount_in_range x₁ ≤ u - x₁ := by
  have hlu := tr.le_of_initOK h hu
  have h2 := tr.amount_le_cap hu x₂
  have h3 : max (x₁ - tr.lower_bound) 0 ≤ u - tr.lower_bound :=
    max_le (by linarith) (by linarith)
  have h4 : tr.amount_in_range x₁ = max (x₁ - tr.lower_bound) 0 := by
    rw [tr.amount_in_range_coe hu, min_eq_left h3]
  have h5 : x₁ - tr.lower_bound ≤ max (x₁ - tr.lower_bound) 0 := le_max_left _ _
  linarith

lemma TaxRange.tax_at_zero {tr : TaxRange} (h : tr.initOK) (hl : 0 ≤ tr.lower_bound) :
    tr.tax 0 = 0 := by
  unfold TaxRange.tax
  rw [tr.amount_eq_zero_of_le_lower h hl, zero_mul]

/-! ## Well-formed range lists -/

/-- The properties of the range list of a validly constructed bracket that the
evaluator lemmas rest on: contiguity, per-range constructor assertions, and
non-negative lower bounds. -/
def goodRanges (rs : List TaxRange) : Prop :=
  List.Chain' (fun a b => a.upper_bound = (b.lower_bound : WithTop ℚ)) rs ∧
  (∀ tr ∈ rs, tr.initOK) ∧ (∀ tr ∈ rs, 0 ≤ tr.lower_bound)

lemma goodRanges_tail {tr : TaxRange} {rest : List TaxRange}
    (h : goodRanges (tr :: rest)) : goodRanges rest :=
  ⟨h.1.tail, fun a ha => h.2.1 a (List.mem_cons_of_mem _ ha),
    fun a ha => h.2.2 a (List.mem_cons_of_mem _ ha)⟩

lemma goodRanges_head {tr b : TaxRange} {l : List TaxRange}
    (h : goodRanges (tr :: b :: l)) : tr.upper_bound = (b.lower_bound : WithTop ℚ) :=
  (List.chain'_cons.mp h.1).1

/-! ## Facts about the range-walking loop -/

lemma taxWalk_nil (x : ℚ) : taxWalk x [] = ([], 0) := rfl

lemma taxWalk_cons (x : ℚ) (tr : TaxRange) (rest : List TaxRange) :
    taxWalk x (tr :: rest) =
      if tr.amount_in_range x = 0 then ([], 0)
      else ((tr.tax x - tr.tax 0) :: (taxWalk x rest).1,
        (tr.tax x - tr.tax 0) + (taxWalk x rest).2) := rfl

lemma taxWalk_snd_zero_of_le {tr : TaxRange} (hOK : tr.initOK) {x : ℚ}
    (hx : x ≤ tr.lower_bound) (rest : List TaxRange) :
    taxWalk x (tr :: rest) = ([], 0) := by
  rw [taxWalk_cons, if_pos (TaxRange.amount_eq_zero_of_le_lower hOK hx)]

lemma taxWalk_snd_nonneg : ∀ (rs : List TaxRange), (∀ tr ∈ rs, tr.initOK) →
    (∀ tr ∈ rs, 0 ≤ tr.lower_bound) → ∀ x : ℚ, 0 ≤ (taxWalk x rs).2 := by
  intro rs
  induction rs with
  | nil => intro _ _ x; simp [taxWalk_nil]
  | cons tr rest ih =>
    intro hOK hlow x
    rw [taxWalk_cons]
    split_ifs with h0
    · simp
    · have h1 := hOK tr (List.mem_cons_self _ _)
      have h2 : tr.tax 0 = 0 := tr.tax_at_zero h1 (hlow tr (List.mem_cons_self _ _))
      have h3 : 0 ≤ tr.tax x :=
        mul_nonneg (tr.amount_nonneg h1 x) h1.2.1
      have h4 := ih (fun a ha => hOK a (List.mem_cons_of_mem _ ha))
        (fun a ha => hlow a (List.mem_cons_of_mem _ ha)) x
      simp only
      linarith

lemma taxWalk_snd_mono : ∀ (rs : List TaxRange), (∀ tr ∈ rs, tr.initOK) →
    (∀ tr ∈ rs, 0 ≤ tr.lower_bound) → ∀ {x₁ x₂ : ℚ}, x₁ ≤ x₂ →
    (taxWalk x₁ rs).2 ≤ (taxWalk x₂ rs).2 := by
  intro rs
  induction rs with
  | nil => intro _ _ x₁ x₂ _; simp [taxWalk_nil]
  | cons tr rest ih =>
    intro hOK hlow x₁ x₂ hx
    have hOKtr := hOK tr (List.mem_cons_self _ _)
    have hlowtr := hlow tr (List.mem_cons_self _ _)
    have hOKr : ∀ a ∈ rest, a.initOK := fun a ha => hOK a (List.mem_cons_of_mem _ ha)
    have hlowr : ∀ a ∈ rest, 0 ≤ a.lower_bound := fun a ha => hlow a (List.mem_cons_of_mem _ ha)
    rw [taxWalk_cons, taxWalk_cons]
    by_cases h2 : tr.amount_in_range x₂ = 0
    · have h1 : tr.amount_in_range x₁ = 0 :=
        le_antisymm (h2 ▸ tr.amount_mono hx) (tr.amount_nonneg hOKtr x₁)
      rw [if_pos h1, if_pos h2]
    · rw [if_neg h2]
      have htx0 : tr.tax 0 = 0 := tr.tax_at_zero hOKtr hlowtr
      split_ifs with h1
      · have h3 : 0 ≤ tr.tax x₂ := mul_nonneg (tr.amount_nonneg hOKtr x₂) hOKtr.2.1
        have h4 := taxWalk_snd_nonneg rest hOKr hlowr x₂
        simp only
        linarith
      · have h5 : tr.tax x₁ ≤ tr.tax x₂ :=
          mul_le_mul_of_nonneg_right (tr.amount_mono hx) hOKtr.2.1
        have h6 := ih hOKr hlowr hx
        simp only
        linarith

lemma taxWalk_snd_le : ∀ (rs : List TaxRange), goodRanges rs →
    ∀ (b : ℚ), (∀ hd ∈ rs.head?, b ≤ hd.lower_bound) →
    ∀ x : ℚ, (taxWalk x rs).2 ≤ max (x - b) 0 := by
  intro rs
  induction rs with
  | nil => intro _ b _ x; simp only [taxWalk_nil]; exact le_max_right (x - b) 0
  | cons tr rest ih =>
    intro hg b hb x
    have hbtr : b ≤ tr.lower_bound := hb tr rfl
    have hOKtr := hg.2.1 tr (List.mem_cons_self _ _)
    have hlowtr := hg.2.2 tr (List.mem_cons_self _ _)
    rw [taxWalk_cons]
    split_ifs with h0
    · simp only; exact le_max_right (x - b) 0
    · have htx0 : tr.tax 0 = 0 := tr.tax_at_zero hOKtr hlowtr
      have hxl : tr.lower_bound < x := by
        by_contra hle
        exact h0 (tr.amount_eq_zero_of_le_lower hOKtr (by linarith))
      rw [max_eq_left (by linarith)]
      have hamt : tr.tax x ≤ tr.amount_in_range x :=
        mul_le_of_le_one_right (tr.amount_nonneg hOKtr x) hOKtr.2.2
      have hamx : tr.amount_in_range x ≤ max (x - tr.lower_bound) 0 := tr.amount_le_max x
      have hmx : max (x - tr.lower_bound) 0 = x - tr.lower_bound :=
        max_eq_left (by linarith)
      cases rest with
      | nil =>
        simp only [taxWalk_nil]
        linarith
      | cons nx rest2 =>
        have hu : tr.upper_bound = (nx.lower_bound : WithTop ℚ) := goodRanges_head hg
        have hOKnx := hg.2.1 nx (List.mem_cons_of_mem _ (List.mem_cons_self _ _))
        rcases le_total x nx.lower_bound with hxc | hxc
        · rw [taxWalk_snd_zero_of_le hOKnx hxc]
          simp only
          linarith
        · have hcl : tr.lower_bound ≤ nx.lower_bound := tr.le_of_initOK hOKtr hu
          have hcap : tr.amount_in_range x ≤ nx.lower_bound - tr.lower_bound :=
            tr.amount_le_cap hu x
          have hrest := ih (goodRanges_tail hg) nx.lower_bound (fun hd hhd => by
            cases hhd; exact le_rfl) x
          rw [max_eq_left (by linarith)] at hrest
          simp only
          linarith

lemma taxWalk_snd_lipschitz : ∀ (rs : List TaxRange), goodRanges rs →
    ∀ {x₁ x₂ : ℚ}, x₁ ≤ x₂ →
    (taxWalk x₂ rs).2 ≤ (taxWalk x₁ rs).2 + (x₂ - x₁) := by
  intro rs
  induction rs with
  | nil => intro _ x₁ x₂ hx; simp [taxWalk_nil]; linarith
  | cons tr rest ih =>
    intro hg x₁ x₂ hx
    have hOKtr := hg.2.1 tr (List.mem_cons_self _ _)
    have hlowtr := hg.2.2 tr (List.mem_cons_self _ _)
    have hOKr : ∀ a ∈ rest, a.initOK := fun a ha => hg.2.1 a (List.mem_cons_of_mem _ ha)
    have hlowr : ∀ a ∈ rest, 0 ≤ a.lower_bound :=
      fun a ha => hg.2.2 a (List.mem_cons_of_mem _ ha)
    have htx0 : tr.tax 0 = 0 := tr.tax_at_zero hOKtr hlowtr
    by_cases h2 : tr.amount_in_range x₂ = 0
    · have hn1 := taxWalk_snd_nonneg (tr :: rest) hg.2.1 hg.2.2 x₁
      rw [taxWalk_cons x₂, if_pos h2]
      simp only
      linarith
    · by_cases h1 : tr.amount_in_range x₁ = 0
      · rw [taxWalk_cons x₁, if_pos h1]
        simp only
        by_cases hxl : x₁ ≤ tr.lower_bound
        · have := taxWalk_snd_le (tr :: rest) hg x₁ (fun hd hhd => by
            cases hhd; exact hxl) x₂
          rw [max_eq_left (by linarith : (0:ℚ) ≤ x₂ - x₁)] at this
          linarith
        · push_neg at hxl
          exfalso
          cases hu : tr.upper_bound with
          | top =>
            rw [tr.amount_in_range_top hu, max_eq_left (by linarith)] at h1
            linarith
          | coe u =>
            rw [tr.amount_in_range_coe hu, max_eq_left (by linarith)] at h1
            have hul : u - tr.lower_bound ≤ 0 := by
              by_contra hpos
              push_neg at hpos
              have := lt_min (by linarith : (0:ℚ) < x₁ - tr.lower_bound) hpos
              rw [h1] at this
              exact lt_irrefl 0 this
            have hc2 : tr.amount_in_range x₂ ≤ u - tr.lower_bound := tr.amount_le_cap hu x₂
            have hc3 : 0 ≤ tr.amount_in_range x₂ := tr.amount_nonneg hOKtr x₂
            exact h2 (le_antisymm (by linarith) hc3)
      · rw [taxWalk_cons x₁, taxWalk_cons x₂, if_neg h1, if_neg h2]
        simp only
        have hdiffp : (tr.tax x₂ - tr.tax 0) - (tr.tax x₁ - tr.tax 0)
            = (tr.amount_in_range x₂ - tr.amount_in_range x₁) * tr.percent := by
          unfold TaxRange.tax
          ring
        have hdnn : 0 ≤ tr.amount_in_range x₂ - tr.amount_in_range x₁ :=
          sub_nonneg.mpr (tr.amount_mono hx)
        have hd1 : (tr.amount_in_range x₂ - tr.amount_in_range x₁) * tr.percent
            ≤ tr.amount_in_range x₂ - tr.amount_in_range x₁ :=
          mul_le_of_le_one_right hdnn hOKtr.2.2
        cases rest with
        | nil =>
          simp only [taxWalk_nil]
          have := tr.amount_lipschitz hx
          linarith
        | cons nx rest2 =>
          have hu : tr.upper_bound = (nx.lower_bound : WithTop ℚ) := goodRanges_head hg
          have hOKnx := hg.2.1 nx (List.mem_cons_of_mem _ (List.mem_cons_self _ _))
          rcases le_total x₂ nx.lower_bound with hx2c | hx2c
          · rw [taxWalk_snd_zero_of_le hOKnx hx2c]
            have hw1 := taxWalk_snd_nonneg (nx :: rest2)
              (fun a ha => hOKr a ha) (fun a ha => hlowr a ha) x₁
            have := tr.amount_lipschitz hx
            simp only
            linarith
          · rcases le_total nx.lower_bound x₁ with hcx1 | hcx1
            · have he1 : tr.amount_in_range x₁ = nx.lower_bound - tr.lower_bound :=
                tr.amount_eq_cap hOKtr hu hcx1
              have he2 : tr.amount_in_range x₂ = nx.lower_bound - tr.lower_bound :=
                tr.amount_eq_cap hOKtr hu (hcx1.trans hx)
              have hrest := ih (goodRanges_tail hg) hx
              have heq : tr.tax x₁ = tr.tax x₂ := by
                unfold TaxRange.tax
                rw [he1, he2]
              linarith
            · have hhb : tr.amount_in_range x₂ - tr.amount_in_range x₁
                  ≤ nx.lower_bound - x₁ := tr.amount_head_bound hOKtr hu hcx1
              have hw2 := taxWalk_snd_le (nx :: rest2) (goodRanges_tail hg)
                nx.lower_bound (fun hd hhd => by cases hhd; exact le_rfl) x₂
              rw [max_eq_left (by linarith)] at hw2
              have hw1 := taxWalk_snd_nonneg (nx :: rest2)
                (fun a ha => hOKr a ha) (fun a ha => hlowr a ha) x₁
              have hd2 : (tr.amount_in_range x₂ - tr.amount_in_range x₁) * tr.percent
                  ≤ nx.lower_bound - x₁ := by
                calc (tr.amount_in_range x₂ - tr.amount_in_range x₁) * tr.percent
                    ≤ tr.amount_in_range x₂ - tr.amount_in_range x₁ := hd1
                  _ ≤ nx.lower_bound - x₁ := hhb
              linarith

/-! ## From the construction assertions to `goodRanges` -/

lemma TaxBracket.ne_nil_of_initOK {tb : TaxBracket} (h : tb.initOK) :
    tb.tax_ranges ≠ [] := by
  intro he
  have h1 := h.1
  rw [he] at h1
  simp at h1

lemma TaxBracket.chain'_of_initOK {tb : TaxBracket} (h : tb.initOK) :
    List.Chain' (fun a b => a.upper_bound = (b.lower_bound : WithTop ℚ)) tb.tax_ranges := by
  rw [List.chain'_iff_get]
  intro i hi
  have h3 := h.2.2 i hi
  rw [List.get?_eq_get (by omega), List.get?_eq_get (by omega)] at h3
  simpa using h3

lemma TaxBracket.head_lower_of_initOK {tb : TaxBracket} (h : tb.initOK) :
    ∀ hd ∈ tb.tax_ranges.head?, hd.lower_bound = 0 := by
  intro hd hhd
  have h1 := h.1
  rw [Option.mem_def] at hhd
  rw [hhd] at h1
  simpa using h1

lemma TaxBracket.getLast_top_of_initOK {tb : TaxBracket} (h : tb.initOK) :
    ∀ tr ∈ tb.tax_ranges.getLast?, tr.upper_bound = ⊤ := by
  intro tr htr
  have h1 := h.2.1
  rw [Option.mem_def] at htr
  rw [htr] at h1
  simpa using h1

lemma chain_lower_le : ∀ (rs : List TaxRange),
    List.Chain' (fun a b => a.upper_bound = (b.lower_bound : WithTop ℚ)) rs →
    (∀ tr ∈ rs, tr.initOK) → ∀ b : ℚ, (∀ hd ∈ rs.head?, b ≤ hd.lower_bound) →
    ∀ tr ∈ rs, b ≤ tr.lower_bound := by
  intro rs
  induction rs with
  | nil => intro _ _ b _ tr htr; simp at htr
  | cons hd rest ih =>
    intro hc hOK b hb tr htr
    have hbhd : b ≤ hd.lower_bound := hb hd rfl
    rcases List.mem_cons.mp htr with rfl | hmem
    · exact hbhd
    · cases rest with
      | nil => simp at hmem
      | cons nx rest2 =>
        have hu : hd.upper_bound = (nx.lower_bound : WithTop ℚ) := (List.chain'_cons.mp hc).1
        have hbnx : b ≤ nx.lower_bound :=
          le_trans hbhd (hd.le_of_initOK (hOK hd (List.mem_cons_self _ _)) hu)
        exact ih hc.tail (fun a ha => hOK a (List.mem_cons_of_mem _ ha)) b
          (fun a ha => by cases ha; exact hbnx) tr hmem

lemma goodRanges_of_valid {tb : TaxBracket} (hv : tb.valid) : goodRanges tb.tax_ranges :=
  ⟨tb.chain'_of_initOK hv.2, hv.1,
    chain_lower_le _ (tb.chain'_of_initOK hv.2) hv.1 0
      (fun hd hhd => le_of_eq (tb.head_lower_of_initOK hv.2 hd hhd).symm)⟩

/-! ## Unfolding lemmas for the evaluators -/

lemma TaxBracket.tax0_eq (tb : TaxBracket) (y d : ℚ) :
    tb.tax0 y d =
      if y - d ≤ 0 then ⟨y, y - d, 0, 0, []⟩
      else ⟨y, y - d, 0, (taxWalk (y - d) tb.tax_ranges).2,
        (taxWalk (y - d) tb.tax_ranges).1⟩ := rfl

lemma TaxBracket.tax_eq (tb : TaxBracket) (a d m : ℚ) :
    tb.tax a d m =
      if a - d + m ≤ 0 ∨ m < 0 then ⟨a, a - d, m, 0, []⟩
      else if 0 < m then
        ⟨a, a - d, m,
          (tb.tax0 (a + m) d).tax_paid - (tb.tax0 m d).tax_paid, []⟩
      else ⟨a, a - d, m, (taxWalk (a - d) tb.tax_ranges).2,
        (taxWalk (a - d) tb.tax_ranges).1⟩ := rfl

lemma TaxBracket.tax0_tax_paid (tb : TaxBracket) (y d : ℚ) :
    (tb.tax0 y d).tax_paid =
      if y - d ≤ 0 then 0 else (taxWalk (y - d) tb.tax_ranges).2 := by
  rw [tb.tax0_eq]
  split_ifs <;> rfl

lemma TaxBracket.tax_full_amount (tb : TaxBracket) (a d m : ℚ) :
    (tb.tax a d m).full_amount = a := by
  rw [tb.tax_eq]
  split_ifs <;> rfl

lemma TaxBracket.tax_remaining (tb : TaxBracket) (a d m : ℚ) :
    (tb.tax a d m).remaining = a - (tb.tax a d m).tax_paid := by
  rw [TaxResult.remaining, tb.tax_full_amount]

lemma TaxBracket.tax_tax_paid_cases (tb : TaxBracket) (a d m : ℚ) :
    (tb.tax a d m).tax_paid =
      if a - d + m ≤ 0 ∨ m < 0 then 0
      else if 0 < m then
        (tb.tax0 (a + m) d).tax_paid - (tb.tax0 m d).tax_paid
      else (taxWalk (a - d) tb.tax_ranges).2 := by
  rw [tb.tax_eq]
  split_ifs <;> rfl

lemma TaxBracket.tax_zero_margin (tb : TaxBracket) (a d : ℚ) :
    tb.tax a d 0 = tb.tax0 a d := by
  rw [tb.tax_eq a d 0, tb.tax0_eq a d]
  simp only [add_zero, lt_irrefl, or_false]
  split_ifs with h1 h2
  · rfl
  · exact h2.elim
  · rfl

/-! ## Monotonicity, non-negativity and 1-Lipschitz bounds for `tax0` -/

lemma TaxBracket.tax0_paid_nonneg {tb : TaxBracket}
    (hOK : ∀ tr ∈ tb.tax_ranges, tr.initOK)
    (hlow : ∀ tr ∈ tb.tax_ranges, 0 ≤ tr.lower_bound) (y d : ℚ) :
    0 ≤ (tb.tax0 y d).tax_paid := by
  rw [tb.tax0_tax_paid]
  split_ifs
  · exact le_refl 0
  · exact taxWalk_snd_nonneg _ hOK hlow _

lemma TaxBracket.tax0_paid_mono {tb : TaxBracket}
    (hOK : ∀ tr ∈ tb.tax_ranges, tr.initOK)
    (hlow : ∀ tr ∈ tb.tax_ranges, 0 ≤ tr.lower_bound) {y₁ y₂ : ℚ} (h : y₁ ≤ y₂) (d : ℚ) :
    (tb.tax0 y₁ d).tax_paid ≤ (tb.tax0 y₂ d).tax_paid := by
  rw [tb.tax0_tax_paid, tb.tax0_tax_paid]
  split_ifs with h1 h2 h2
  · exact le_refl 0
  · exact taxWalk_snd_nonneg _ hOK hlow _
  · linarith
  · exact taxWalk_snd_mono _ hOK hlow (by linarith)

lemma TaxBracket.tax0_paid_lipschitz {tb : TaxBracket} (hg : goodRanges tb.tax_ranges)
    {y₁ y₂ : ℚ} (h : y₁ ≤ y₂) (d : ℚ) :
    (tb.tax0 y₂ d).tax_paid ≤ (tb.tax0 y₁ d).tax_paid + (y₂ - y₁) := by
  rw [tb.tax0_tax_paid, tb.tax0_tax_paid]
  split_ifs with h1 h2 h2
  · linarith
  · linarith
  · have hle := taxWalk_snd_le tb.tax_ranges hg 0
      (fun hd hhd => hg.2.2 hd (List.mem_of_mem_head? hhd)) (y₂ - d)
    rcases max_cases (y₂ - d - 0) 0 with ⟨he, _⟩ | ⟨he, _⟩ <;> rw [he] at hle <;> linarith
  · have := taxWalk_snd_lipschitz tb.tax_ranges hg
      (by linarith : y₁ - d ≤ y₂ - d)
    linarith

/-! ## The full evaluator in terms of `tax0` -/

lemma TaxBracket.tax_paid_nonneg {tb : TaxBracket}
    (hOK : ∀ tr ∈ tb.tax_ranges, tr.initOK)
    (hlow : ∀ tr ∈ tb.tax_ranges, 0 ≤ tr.lower_bound)
    {a : ℚ} (ha : 0 ≤ a) (d m : ℚ) :
    0 ≤ (tb.tax a d m).tax_paid := by
  rw [tb.tax_tax_paid_cases]
  split_ifs with h1 h2
  · exact le_refl 0
  · exact sub_nonneg.mpr (tb.tax0_paid_mono hOK hlow (by linarith) d)
  · exact taxWalk_snd_nonneg _ hOK hlow _

lemma TaxBracket.tax_paid_formula (tb : TaxBracket)
    {a d m : ℚ} (hd : 0 ≤ d) (hm : 0 ≤ m) (ha : 0 ≤ a) :
    (tb.tax a d m).tax_paid =
      (tb.tax0 (a + m) d).tax_paid - (tb.tax0 m d).tax_paid := by
  rw [tb.tax_tax_paid_cases]
  split_ifs with h1 h2
  · rcases h1 with h1 | h1
    · rw [tb.tax0_tax_paid (a + m), if_pos (by linarith),
        tb.tax0_tax_paid m, if_pos (by linarith)]
      ring
    · linarith
  · rfl
  · have hm0 : m = 0 := le_antisymm (not_lt.mp h2) hm
    subst hm0
    push_neg at h1
    rw [add_zero, tb.tax0_tax_paid a, if_neg (by push_neg; linarith [h1.1]),
      tb.tax0_tax_paid 0, if_pos (by linarith)]
    ring

lemma TaxBracket.tax_paid_abs_lipschitz {tb : TaxBracket} (hg : goodRanges tb.tax_ranges)
    {d m : ℚ} (hd : 0 ≤ d) (hm : 0 ≤ m) {y₁ y₂ : ℚ} (h1 : 0 ≤ y₁) (h2 : 0 ≤ y₂) :
    |(tb.tax y₂ d m).tax_paid - (tb.tax y₁ d m).tax_paid| ≤ |y₂ - y₁| := by
  rw [tb.tax_paid_formula hd hm h1, tb.tax_paid_formula hd hm h2]
  rcases le_total y₁ y₂ with hle | hle
  · have hmono := tb.tax0_paid_mono hg.2.1 hg.2.2
      (by linarith : y₁ + m ≤ y₂ + m) d
    have hlip := tb.tax0_paid_lipschitz hg (by linarith : y₁ + m ≤ y₂ + m) d
    rw [abs_of_nonneg (by linarith), abs_of_nonneg (by linarith)]
    linarith
  · have hmono := tb.tax0_paid_mono hg.2.1 hg.2.2
      (by linarith : y₂ + m ≤ y₁ + m) d
    have hlip := tb.tax0_paid_lipschitz hg (by linarith : y₂ + m ≤ y₁ + m) d
    rw [abs_of_nonpos (by linarith), abs_of_nonpos (by linarith)]
    linarith

/-! ## The reverse-tax fixed-point loop -/

lemma reverseTaxLoop_zero (tb : TaxBracket) (f d m ε guess : ℚ) :
    reverseTaxLoop tb f d m ε 0 guess = .degraded guess := rfl

lemma reverseTaxLoop_succ (tb : TaxBracket) (f d m ε : ℚ) (fuel : ℕ) (guess : ℚ) :
    reverseTaxLoop tb f d m ε (fuel + 1) guess =
      if |f - (tb.tax guess d m).remaining| < ε
      then .converged (guess + (f - (tb.tax guess d m).remaining))
      else reverseTaxLoop tb f d m ε fuel
        (guess + (f - (tb.tax guess d m).remaining)) := rfl

lemma reverseGuessIter_zero (tb : TaxBracket) (f d m guess : ℚ) :
    reverseGuessIter tb f d m 0 guess = guess := rfl

lemma reverseGuessIter_succ (tb : TaxBracket) (f d m : ℚ) (fuel : ℕ) (guess : ℚ) :
    reverseGuessIter tb f d m (fuel + 1) guess =
      reverseGuessIter tb f d m fuel
        (guess + (f - (tb.tax guess d m).remaining)) := rfl

lemma reverseTaxLoop_degraded_eq (tb : TaxBracket) (f d m ε : ℚ) :
    ∀ (fuel : ℕ) (guess g : ℚ),
      reverseTaxLoop tb f d m ε fuel guess = .degraded g →
      g = reverseGuessIter tb f d m fuel guess := by
  intro fuel
  induction fuel with
  | zero =>
    intro guess g h
    rw [reverseTaxLoop_zero] at h
    injection h with h
    rw [reverseGuessIter_zero, h]
  | succ n ih =>
    intro guess g h
    rw [reverseTaxLoop_succ] at h
    rw [reverseGuessIter_succ]
    split_ifs at h with hoff
    exact ih _ _ h

lemma reverseTaxLoop_converged_residual {tb : TaxBracket} (hg : goodRanges tb.tax_ranges)
    {x d m ε : ℚ} (hd : 0 ≤ d) (hm : 0 ≤ m) (hx : 0 ≤ x) :
    ∀ (fuel : ℕ) (guess : ℚ), 0 ≤ guess → ∀ g : ℚ,
      reverseTaxLoop tb x d m ε fuel guess = .converged g →
      |(tb.tax g d m).remaining - x| < ε := by
  intro fuel
  induction fuel with
  | zero =>
    intro guess _ g h
    rw [reverseTaxLoop_zero] at h
    exact ReverseTaxResult.noConfusion h
  | succ n ih =>
    intro guess hguess g h
    rw [reverseTaxLoop_succ] at h
    have hpnn : 0 ≤ (tb.tax guess d m).tax_paid :=
      tb.tax_paid_nonneg hg.2.1 hg.2.2 hguess d m
    have hupd : guess + (x - (tb.tax guess d m).remaining)
        = x + (tb.tax guess d m).tax_paid := by
      rw [tb.tax_remaining]
      ring
    split_ifs at h with hoff
    · injection h with hgeq
      subst hgeq
      rw [hupd]
      have hgnn : 0 ≤ x + (tb.tax guess d m).tax_paid := by linarith
      have hlip := tb.tax_paid_abs_lipschitz hg hd hm hguess hgnn
      have hdist : |x + (tb.tax guess d m).tax_paid - guess|
          = |x - (tb.tax guess d m).remaining| := by
        rw [tb.tax_remaining]
        congr 1
        ring
      rw [hdist] at hlip
      have hrem : (tb.tax (x + (tb.tax guess d m).tax_paid) d m).remaining - x
          = (tb.tax guess d m).tax_paid
            - (tb.tax (x + (tb.tax guess d m).tax_paid) d m).tax_paid := by
        rw [tb.tax_remaining]
        ring
      rw [hrem]
      calc |(tb.tax guess d m).tax_paid
            - (tb.tax (x + (tb.tax guess d m).tax_paid) d m).tax_paid|
          = |(tb.tax (x + (tb.tax guess d m).tax_paid) d m).tax_paid
            - (tb.tax guess d m).tax_paid| := abs_sub_comm _ _
        _ ≤ |x - (tb.tax guess d m).remaining| := hlip
        _ < ε := hoff
    · rw [hupd] at h
      exact ih _ (by linarith) g h

/-! ## The drawdown solver loop -/

lemma igwad_zero (S d r : ℚ) : igwad S 0 d r = S := rfl

lemma igwad_succ (S d r : ℚ) (y : ℕ) :
    igwad S (y + 1) d r = igwad ((S - d) * (1 + r)) y d r := rfl

lemma fodLoop_zero (S r ε gk md : ℚ) (N : ℕ) (pg pe : ℚ) :
    fodLoop S r ε gk md N 0 pg pe = .exhausted := rfl

lemma fodLoop_succ (S r ε gk md : ℚ) (N fuel : ℕ) (pg pe : ℚ) :
    fodLoop S r ε gk md N (fuel + 1) pg pe =
      if |pe| < |igwad S N (md + (pg + pe / gk)) r| then .diverged
      else if |igwad S N (md + (pg + pe / gk)) r| < ε
        then .converged (md + (pg + pe / gk))
      else fodLoop S r ε gk md N fuel (pg + pe / gk)
        (igwad S N (md + (pg + pe / gk)) r) := rfl

lemma fodLoop_converged_residual (S r ε gk md : ℚ) (N : ℕ) :
    ∀ (fuel : ℕ) (pg pe dist : ℚ),
      fodLoop S r ε gk md N fuel pg pe = .converged dist →
      |igwad S N dist r| < ε := by
  intro fuel
  induction fuel with
  | zero =>
    intro pg pe dist h
    rw [fodLoop_zero] at h
    exact FodOutcome.noConfusion h
  | succ n ih =>
    intro pg pe dist h
    rw [fodLoop_succ] at h
    split_ifs at h with h1 h2
    · injection h with hd
      subst hd
      exact h2
    · exact ih _ _ _ h

lemma fodLoop_ne_divisionError (S r ε gk md : ℚ) (N : ℕ) :
    ∀ (fuel : ℕ) (pg pe : ℚ),
      fodLoop S r ε gk md N fuel pg pe ≠ .divisionError := by
  intro fuel
  induction fuel with
  | zero => intro pg pe h; rw [fodLoop_zero] at h; exact FodOutcome.noConfusion h
  | succ n ih =>
    intro pg pe h
    rw [fodLoop_succ] at h
    split_ifs at h with h1 h2
    exact ih _ _ h

lemma igwad_eq_iterate (d r : ℚ) : ∀ (N : ℕ) (S : ℚ),
    igwad S N d r = (fun a => (a - d) * (1 + r))^[N] S := by
  intro N
  induction N with
  | zero => intro S; rfl
  | succ n ih =>
    intro S
    rw [igwad_succ, ih, Function.iterate_succ_apply]

lemma igwad_closed_form (d r : ℚ) : ∀ (N : ℕ) (S : ℚ),
    igwad S N d r =
      S * (1 + r) ^ N - d * ∑ k ∈ Finset.Icc 1 N, (1 + r) ^ k := by
  intro N
  induction N with
  | zero => intro S; simp [igwad_zero]
  | succ n ih =>
    intro S
    rw [igwad_succ, ih, Finset.sum_Icc_succ_top (by omega : 1 ≤ n + 1)]
    ring

/-! ## Binary search and the cumulative array -/

lemma bisect_left_cons (tr : TaxRange) (rest : List TaxRange) (x : ℚ) :
    bisect_left (tr :: rest) x =
      if tr.upper_bound < (x : WithTop ℚ) then bisect_left rest x + 1 else 0 := rfl

lemma bisect_left_lt_length : ∀ (rs : List TaxRange), rs ≠ [] →
    (∀ tr ∈ rs.getLast?, tr.upper_bound = ⊤) →
    ∀ x : ℚ, bisect_left rs x < rs.length := by
  intro rs
  induction rs with
  | nil => intro h; exact absurd rfl h
  | cons tr rest ih =>
    intro _ hlast x
    rw [bisect_left_cons]
    split_ifs with hlt
    · cases rest with
      | nil =>
        have htop : tr.upper_bound = ⊤ := hlast tr rfl
        rw [htop] at hlt
        exact absurd hlt (not_top_lt)
      | cons b l =>
        have := ih (List.cons_ne_nil b l)
          (fun a ha => hlast a (by rw [List.getLast?_cons_cons]; exact ha)) x
        simp only [List.length_cons] at this ⊢
        omega
    · simp only [List.length_cons]
      omega

lemma cumsum_length : ∀ l : List ℚ, (cumsum l).length = l.length := by
  intro l
  induction l with
  | nil => rfl
  | cons a t ih => simp [cumsum, ih]

lemma cumsum_get? : ∀ (l : List ℚ) (i : ℕ), i < l.length →
    (cumsum l).get? i = some ((l.take (i + 1)).sum) := by
  intro l
  induction l with
  | nil => intro i hi; simp at hi
  | cons a t ih =>
    intro i hi
    cases i with
    | zero => simp [cumsum]
    | succ j =>
      have hj : j < t.length := by simpa using hi
      show ((cumsum (a :: t)).get? (j + 1)) = _
      rw [show cumsum (a :: t) = a :: (cumsum t).map (a + ·) from rfl,
        List.get?_cons_succ, List.get?_map, ih j hj]
      simp [List.take_succ_cons]

lemma TaxBracket.cum_range_get {tb : TaxBracket} {i : ℕ}
    (hne : tb.tax_ranges ≠ []) (hi : i < tb.tax_ranges.length) :
    tb.cum_range_tax_amounts.get? i =
      some (((tb.tax_ranges.dropLast.map TaxRange.full_range_tax).take i).sum) := by
  unfold TaxBracket.cum_range_tax_amounts
  have hpos : 0 < tb.tax_ranges.length := List.length_pos.mpr hne
  have hlen : (0 :: tb.tax_ranges.dropLast.map TaxRange.full_range_tax).length
      = tb.tax_ranges.length := by
    simp only [List.length_cons, List.length_map, List.length_dropLast]
    omega
  rw [cumsum_get? _ i (by rw [hlen]; exact hi)]
  rw [List.take_succ_cons, List.sum_cons, zero_add]

/-! ## The walk agrees with binary search plus cumulative sums -/

lemma taxWalk_bisect_formula : ∀ (rs : List TaxRange), rs ≠ [] → ∀ x : ℚ,
    goodRanges rs →
    (∀ tr ∈ rs, (tr.lower_bound : WithTop ℚ) < tr.upper_bound) →
    (∀ tr ∈ rs.getLast?, tr.upper_bound = ⊤) →
    (∀ hd ∈ rs.head?, hd.lower_bound < x) →
    ∃ tr, rs.get? (bisect_left rs x) = some tr ∧
      (taxWalk x rs).2 =
        ((rs.dropLast.map TaxRange.full_range_tax).take (bisect_left rs x)).sum
          + (x - tr.lower_bound) * tr.percent := by
  intro rs
  induction rs with
  | nil => intro h; exact absurd rfl h
  | cons tr rest ih =>
    intro _ x hg hstrict hlast hhead
    have hOKtr := hg.2.1 tr (List.mem_cons_self _ _)
    have hlow := hg.2.2 tr (List.mem_cons_self _ _)
    have hlx : tr.lower_bound < x := hhead tr rfl
    have htx0 : tr.tax 0 = 0 := tr.tax_at_zero hOKtr hlow
    cases rest with
    | nil =>
      have htop : tr.upper_bound = ⊤ := hlast tr rfl
      have hb : bisect_left [tr] x = 0 := by
        rw [bisect_left_cons, if_neg]
        rw [htop]
        exact not_top_lt
      rw [hb]
      refine ⟨tr, rfl, ?_⟩
      have hamt : tr.amount_in_range x = x - tr.lower_bound := by
        rw [tr.amount_in_range_top htop, max_eq_left (by linarith)]
      rw [taxWalk_cons, if_neg (by rw [hamt]; exact sub_ne_zero_of_ne (ne_of_gt hlx))]
      simp only [taxWalk_nil]
      rw [TaxRange.tax, hamt, htx0]
      simp
    | cons b l =>
      have hu : tr.upper_bound = (b.lower_bound : WithTop ℚ) := goodRanges_head hg
      have hlastr : ∀ a ∈ (b :: l).getLast?, a.upper_bound = ⊤ :=
        fun a ha => hlast a (by rw [List.getLast?_cons_cons]; exact ha)
      have hstr : tr.lower_bound < b.lower_bound := by
        have h1 := hstrict tr (List.mem_cons_self _ _)
        rw [hu] at h1
        exact_mod_cast h1
      by_cases hlt : b.lower_bound < x
      · obtain ⟨tr', hget, hwalk⟩ := ih (List.cons_ne_nil b l) x (goodRanges_tail hg)
          (fun a ha => hstrict a (List.mem_cons_of_mem _ ha)) hlastr
          (fun hd hhd => by cases hhd; exact hlt)
        have hbis : bisect_left (tr :: b :: l) x = bisect_left (b :: l) x + 1 := by
          rw [bisect_left_cons, if_pos]
          rw [hu]
          exact_mod_cast hlt
        rw [hbis]
        refine ⟨tr', by rw [List.get?_cons_succ]; exact hget, ?_⟩
        have hamt : tr.amount_in_range x = b.lower_bound - tr.lower_bound :=
          tr.amount_eq_cap hOKtr hu (le_of_lt hlt)
        rw [taxWalk_cons, if_neg (by rw [hamt]; exact sub_ne_zero_of_ne (ne_of_gt hstr))]
        simp only
        rw [TaxRange.tax, hamt, htx0, hwalk]
        rw [show (tr :: b :: l).dropLast = tr :: (b :: l).dropLast from rfl,
          List.map_cons, List.take_succ_cons, List.sum_cons,
          tr.full_range_tax_coe hu]
        ring
      · push_neg at hlt
        have hbis : bisect_left (tr :: b :: l) x = 0 := by
          rw [bisect_left_cons, if_neg]
          rw [hu]
          intro h1
          exact absurd (by exact_mod_cast h1 : b.lower_bound < x) (not_lt.mpr hlt)
        rw [hbis]
        refine ⟨tr, rfl, ?_⟩
        have hamt : tr.amount_in_range x = x - tr.lower_bound := by
          rw [tr.amount_in_range_coe hu, max_eq_left (by linarith),
            min_eq_left (by linarith)]
        rw [taxWalk_cons, if_neg (by rw [hamt]; exact sub_ne_zero_of_ne (ne_of_gt hlx))]
        simp only
        rw [taxWalk_snd_zero_of_le (hg.2.1 b (List.mem_cons_of_mem _ (List.mem_cons_self _ _))) hlt]
        rw [TaxRange.tax, hamt, htx0]
        simp

lemma TaxBracket.fast_tax0_def (tb : TaxBracket) (y d : ℚ) :
    tb.fast_tax0 y d =
      if y - d ≤ 0 then some 0
      else
        match tb.tax_ranges.get? (bisect_left tb.tax_ranges (y - d)),
            tb.cum_range_tax_amounts.get? (bisect_left tb.tax_ranges (y - d)) with
        | some tr, some c => some (c + ((y - d) - tr.lower_bound) * tr.percent)
        | _, _ => none := rfl

lemma TaxBracket.fast_tax_def (tb : TaxBracket) (a d m : ℚ) :
    tb.fast_tax a d m =
      if a - d + m ≤ 0 ∨ m < 0 then some 0
      else if 0 < m then
        match tb.fast_tax0 (m + a) d, tb.fast_tax0 m d with
        | some p, some q => some (p - q)
        | _, _ => none
      else tb.fast_tax0 a d := rfl

/-- On brackets whose ranges all have strictly increasing bounds, the binary
search plus cumulative-sum evaluator agrees exactly with the walking loop at
margin 0. -/
lemma TaxBracket.fast_tax0_eq {tb : TaxBracket} (hv : tb.valid)
    (hs : ∀ tr ∈ tb.tax_ranges, (tr.lower_bound : WithTop ℚ) < tr.upper_bound)
    (y d : ℚ) : tb.fast_tax0 y d = some ((tb.tax0 y d).tax_paid) := by
  have hg := goodRanges_of_valid hv
  have hne := tb.ne_nil_of_initOK hv.2
  rw [tb.fast_tax0_def, tb.tax0_tax_paid]
  split_ifs with hle
  · rfl
  · push_neg at hle
    obtain ⟨tr, hget, hwalk⟩ := taxWalk_bisect_formula tb.tax_ranges hne (y - d) hg hs
      (tb.getLast_top_of_initOK hv.2)
      (fun hd hhd => by rw [tb.head_lower_of_initOK hv.2 hd hhd]; linarith)
    have hi : bisect_left tb.tax_ranges (y - d) < tb.tax_ranges.length :=
      bisect_left_lt_length tb.tax_ranges hne (tb.getLast_top_of_initOK hv.2) (y - d)
    rw [hget, tb.cum_range_get hne hi, hwalk]

/-! ## The concrete example brackets are validly constructed -/

lemma flatB_valid : flatB.valid := by
  constructor
  · intro tr htr
    simp only [flatB, List.mem_cons, List.not_mem_nil, or_false] at htr
    subst htr
    exact ⟨le_top, by norm_num, by norm_num⟩
  · refine ⟨by simp [flatB], by simp [flatB], ?_⟩
    intro i hi
    simp [flatB] at hi

lemma twoB_valid : twoB.valid := by
  constructor
  · intro tr htr
    simp only [twoB, List.mem_cons, List.not_mem_nil, or_false] at htr
    rcases htr with rfl | rfl
    · refine ⟨?_, by norm_num, by norm_num⟩
      show ((0 : ℚ) : WithTop ℚ) ≤ ((100 : ℚ) : WithTop ℚ)
      exact_mod_cast (by norm_num : (0 : ℚ) ≤ 100)
    · exact ⟨le_top, by norm_num, by norm_num⟩
  · refine ⟨by simp [twoB], by simp [twoB], ?_⟩
    intro i hi
    have hi0 : i = 0 := by simp [twoB] at hi; omega
    subst hi0
    simp [twoB]

lemma twoB_strict :
    ∀ tr ∈ twoB.tax_ranges, (tr.lower_bound : WithTop ℚ) < tr.upper_bound := by
  intro tr htr
  simp only [twoB, List.mem_cons, List.not_mem_nil, or_false] at htr
  rcases htr with rfl | rfl
  · show ((0 : ℚ) : WithTop ℚ) < ((100 : ℚ) : WithTop ℚ)
    exact_mod_cast (by norm_num : (0 : ℚ) < 100)
  · exact WithTop.coe_lt_top _

lemma zwB_valid : zwB.valid := by
  constructor
  · intro tr htr
    simp only [zwB, List.mem_cons, List.not_mem_nil, or_false] at htr
    rcases htr with rfl | rfl | rfl
    · refine ⟨?_, by norm_num, by norm_num⟩
      show ((0 : ℚ) : WithTop ℚ) ≤ ((100 : ℚ) : WithTop ℚ)
      exact_mod_cast (by norm_num : (0 : ℚ) ≤ 100)
    · refine ⟨?_, by norm_num, by norm_num⟩
      show ((100 : ℚ) : WithTop ℚ) ≤ ((100 : ℚ) : WithTop ℚ)
      exact le_rfl
    · exact ⟨le_top, by norm_num, by norm_num⟩
  · refine ⟨by simp [zwB], by simp [zwB], ?_⟩
    intro i hi
    have hi01 : i = 0 ∨ i = 1 := by simp [zwB] at hi; omega
    rcases hi01 with rfl | rfl <;> simp [zwB]

/-! ## Claim theorems -/

/-- Claim C6 (confirmed).  `TaxBracket` construction succeeds exactly on the
non-empty, contiguous, gapless range sequences covering `[0, ∞)`: the
constructor assertions (first lower bound `0`, last upper bound infinity, each
adjacent pair sharing a boundary) hold iff the spec's structural invariant
holds; every violation — a gap, an overlap, a wrong first lower bound or a
wrong last upper bound — fails an assertion. -/
theorem taxBracket_initOK_iff_specValid (tb : TaxBracket) :
    tb.initOK ↔ tb.specValid := by
  obtain ⟨rs⟩ := tb
  cases rs with
  | nil =>
    constructor
    · intro h
      exact absurd rfl (TaxBracket.ne_nil_of_initOK h)
    · intro h
      exact False.elim h
  | cons first rest =>
    constructor
    · intro h
      refine ⟨TaxBracket.head_lower_of_initOK h first rfl, ?_,
        TaxBracket.chain'_of_initOK h⟩
      apply TaxBracket.getLast_top_of_initOK h
      rw [List.getLast?_eq_getLast _ (List.cons_ne_nil first rest)]
      rfl
    · rintro ⟨h1, h2, h3⟩
      refine ⟨?_, ?_, ?_⟩
      · simp [h1]
      · rw [List.getLast?_eq_getLast _ (List.cons_ne_nil first rest)]
        simp [h2]
      · intro i hi
        have hi0 : i < (first :: rest).length - 1 := hi
        have hi1 : i < (first :: rest).length := by omega
        have hi2 : i + 1 < (first :: rest).length := by
          simp only [List.length_cons] at hi0 ⊢
          omega
        have hc := List.chain'_iff_get.mp h3 i hi0
        show ((first :: rest).get? i).map TaxRange.upper_bound =
          ((first :: rest).get? (i + 1)).map (fun tr => (tr.lower_bound : WithTop ℚ))
        rw [List.get?_eq_get hi1, List.get?_eq_get hi2]
        simpa using hc

/-- Claim C8 (confirmed).  Whenever `taxable_amount + margin ≤ 0` or
`margin < 0`, `tax` returns the zero result (`tax_paid = 0`, empty breakdown,
inputs echoed) and `fast_tax` returns `0`: non-positive taxable income is
never taxed. -/
theorem tax_nonpositive_is_zero {tb : TaxBracket} {a d m : ℚ}
    (h : a - d + m ≤ 0 ∨ m < 0) :
    tb.tax a d m = ⟨a, a - d, m, 0, []⟩ ∧ tb.fast_tax a d m = some 0 := by
  constructor
  · rw [tb.tax_eq, if_pos h]
  · rw [tb.fast_tax_def, if_pos h]

/-- Witness for C8 at a concrete input: `full_amount = -5`, `deduction = 0`,
`margin = 0` on the flat 10% bracket. -/
theorem tax_nonpositive_is_zero_witness :
    ((-5 : ℚ) - 0 + 0 ≤ 0 ∨ (0 : ℚ) < 0) ∧
      flatB.tax (-5) 0 0 = ⟨-5, -5 - 0, 0, 0, []⟩ ∧
      flatB.fast_tax (-5) 0 0 = some 0 :=
  ⟨by norm_num, (tax_nonpositive_is_zero (by norm_num)).1,
    (tax_nonpositive_is_zero (by norm_num)).2⟩

/-- Claim C9 (confirmed).  `igwad` is the pure simulation primitive: it equals
`years` iterations of `amount := (amount - dist) * (1 + return_rate)` from
`starting_amount`, and in exact arithmetic equals the closed form
`S * (1+r)^N - d * Σ_(k=1..N) (1+r)^k`. -/
theorem igwad_pure_iteration (S : ℚ) (N : ℕ) (d r : ℚ) :
    igwad S N d r = (fun a => (a - d) * (1 + r))^[N] S ∧
    igwad S N d r = S * (1 + r) ^ N - d * ∑ k ∈ Finset.Icc 1 N, (1 + r) ^ k :=
  ⟨igwad_eq_iterate d r N S, igwad_closed_form d r N S⟩

/-- Claim C10 (confirmed).  For a bracket passing its construction assertions
(in particular last upper bound `= ∞`), on the binary-search branch of
`fast_tax` (`margin = 0`, `taxable_amount > 0`) the bisect index is strictly
below the number of ranges, so both the range indexing and the cumulative
array indexing are in bounds and `fast_tax` never takes the out-of-range
(`none`) path. -/
theorem fast_tax_index_in_bounds {tb : TaxBracket} (h : tb.initOK) {a d : ℚ}
    (hpos : 0 < a - d) :
    bisect_left tb.tax_ranges (a - d) < tb.tax_ranges.length ∧
    (tb.fast_tax a d 0).isSome = true := by
  have hne := TaxBracket.ne_nil_of_initOK h
  have hlt := bisect_left_lt_length tb.tax_ranges hne
    (TaxBracket.getLast_top_of_initOK h) (a - d)
  refine ⟨hlt, ?_⟩
  rw [tb.fast_tax_def, if_neg (not_or.mpr ⟨not_le.mpr (by linarith), lt_irrefl 0⟩),
    if_neg (lt_irrefl 0), tb.fast_tax0_def, if_neg (not_le.mpr hpos),
    List.get?_eq_get hlt, tb.cum_range_get hne hlt]
  rfl

/-- Witness for C10 at a concrete input: the two-range bracket with
`taxable_amount = 150`. -/
theorem fast_tax_index_in_bounds_witness :
    twoB.initOK ∧ 0 < (150 : ℚ) - 0 ∧
      bisect_left twoB.tax_ranges (150 - 0) < twoB.tax_ranges.length ∧
      (twoB.fast_tax 150 0 0).isSome = true :=
  ⟨twoB_valid.2, by norm_num, (fast_tax_index_in_bounds twoB_valid.2 (by norm_num)).1,
    (fast_tax_index_in_bounds twoB_valid.2 (by norm_num)).2⟩

/-- Counterexample for C3 as stated: on the (validly constructed) flat 10%
bracket, with `a = -100`, `d = 0`, `m = 50 ≥ 0`, the margin identity fails:
`tax(a, d, m).tax_paid = 0` (the non-positive-taxable guard fires) while
`tax(a+m, d).tax_paid - tax(m, d).tax_paid = 0 - 5 = -5`. -/
theorem tax_margin_identity_cex :
    flatB.valid ∧ (0 : ℚ) ≤ 50 ∧
      (flatB.tax (-100) 0 50).tax_paid ≠
        (flatB.tax (-100 + 50) 0 0).tax_paid - (flatB.tax 50 0 0).tax_paid := by
  refine ⟨flatB_valid, by norm_num, ?_⟩
  norm_num [TaxBracket.tax_eq, TaxBracket.tax0_eq, taxWalk, TaxRange.tax,
    TaxRange.amount_in_range, flatB]

/-- Claim C3 (corrected).  The margin identity
`tax(a, d, m).tax_paid = tax(a+m, d).tax_paid - tax(m, d).tax_paid` holds
exactly (in exact arithmetic) for every bracket whenever `d ≥ 0`, `m ≥ 0` and
the shifted taxable amount `(a - d) + m` is positive; the unrestricted claim
fails when the guard zeroes the left side (see the counterexample). -/
theorem tax_margin_identity {tb : TaxBracket} {a d m : ℚ} (hd : 0 ≤ d)
    (hm : 0 ≤ m) (hpos : 0 < a - d + m) :
    (tb.tax a d m).tax_paid =
      (tb.tax (a + m) d 0).tax_paid - (tb.tax m d 0).tax_paid := by
  rw [tb.tax_zero_margin, tb.tax_zero_margin, tb.tax_tax_paid_cases]
  split_ifs with h1 h2
  · exfalso
    rcases h1 with h1 | h1 <;> linarith
  · rfl
  · have hm0 : m = 0 := le_antisymm (not_lt.mp h2) hm
    subst hm0
    rw [add_zero, tb.tax0_tax_paid a, if_neg (not_le.mpr (by linarith)),
      tb.tax0_tax_paid 0, if_pos (by linarith)]
    ring

/-- Witness for the amended C3 at a concrete input: flat 10% bracket,
`a = 100`, `d = 0`, `m = 50`. -/
theorem tax_margin_identity_witness :
    (0 : ℚ) ≤ 0 ∧ (0 : ℚ) ≤ 50 ∧ 0 < (100 : ℚ) - 0 + 50 ∧
      (flatB.tax 100 0 50).tax_paid =
        (flatB.tax (100 + 50) 0 0).tax_paid - (flatB.tax 50 0 0).tax_paid :=
  ⟨by norm_num, by norm_num, by norm_num,
    tax_margin_identity (by norm_num) (by norm_num) (by norm_num)⟩

/-- Counterexample for C7 as stated: on the (validly constructed) flat 10%
bracket with `d = 0`, `m = 50`, the map `a ↦ tax(a, d, m).tax_paid` is not
monotone on negative amounts: `tax(-50, 0, 50).tax_paid = 0` (guard) but
`tax(-20, 0, 50).tax_paid = 3 - 5 = -2 < 0`. -/
theorem tax_paid_monotone_cex :
    flatB.valid ∧ (-50 : ℚ) ≤ -20 ∧
      (flatB.tax (-20) 0 50).tax_paid < (flatB.tax (-50) 0 50).tax_paid := by
  refine ⟨flatB_valid, by norm_num, ?_⟩
  norm_num [TaxBracket.tax_eq, TaxBracket.tax0_eq, taxWalk, TaxRange.tax,
    TaxRange.amount_in_range, flatB]

/-- Claim C7 (corrected).  For every validly constructed bracket and every
fixed `d` and `m`, `a ↦ tax(a, d, m).tax_paid` is monotone non-decreasing on
`a ≥ 0`; monotonicity on all of `ℚ` fails (see the counterexample). -/
theorem tax_paid_monotone {tb : TaxBracket} (hv : tb.valid) {a₁ a₂ : ℚ}
    (h0 : 0 ≤ a₁) (h12 : a₁ ≤ a₂) (d m : ℚ) :
    (tb.tax a₁ d m).tax_paid ≤ (tb.tax a₂ d m).tax_paid := by
  have hg := goodRanges_of_valid hv
  rcases lt_trichotomy m 0 with hm | hm | hm
  · rw [tb.tax_tax_paid_cases, tb.tax_tax_paid_cases, if_pos (Or.inr hm),
      if_pos (Or.inr hm)]
  · subst hm
    rw [tb.tax_zero_margin, tb.tax_zero_margin]
    exact tb.tax0_paid_mono hg.2.1 hg.2.2 h12 d
  · rw [tb.tax_tax_paid_cases, tb.tax_tax_paid_cases]
    by_cases c1 : a₁ - d + m ≤ 0 ∨ m < 0 <;> by_cases c3 : a₂ - d + m ≤ 0 ∨ m < 0
    · rw [if_pos c1, if_pos c3]
    · rw [if_pos c1, if_neg c3, if_pos hm]
      exact sub_nonneg.mpr (tb.tax0_paid_mono hg.2.1 hg.2.2 (by linarith) d)
    · exfalso
      rcases c3 with h | h
      · exact c1 (Or.inl (by linarith))
      · linarith
    · rw [if_neg c1, if_neg c3, if_pos hm, if_pos hm]
      have := tb.tax0_paid_mono hg.2.1 hg.2.2 (by linarith : a₁ + m ≤ a₂ + m) d
      linarith

/-- Witness for the amended C7 at a concrete input: flat 10% bracket,
`0 ≤ 10 ≤ 20`. -/
theorem tax_paid_monotone_witness :
    flatB.valid ∧ (0 : ℚ) ≤ 10 ∧ (10 : ℚ) ≤ 20 ∧
      (flatB.tax 10 0 0).tax_paid ≤ (flatB.tax 20 0 0).tax_paid :=
  ⟨flatB_valid, by norm_num, by norm_num,
    tax_paid_monotone flatB_valid (by norm_num) (by norm_num) 0 0⟩

/-- Claim C5 (confirmed).  `reverse_tax` never raises: every run either
returns early from inside the loop (`converged`) or exhausts the iteration
budget and — after logging the warning — returns the current guess, which is
exactly the value of the unconditional guess iteration started at
`final_amount`.  There is no failure outcome, unlike `find_optimal_distribution`,
whose outcome type has valueless failure states. -/
theorem reverse_tax_never_raises (tb : TaxBracket)
    (final_amount deduction margin ε : ℚ) (iters : ℕ) :
    (∃ g, tb.reverse_tax final_amount deduction margin ε iters = .converged g) ∨
    tb.reverse_tax final_amount deduction margin ε iters =
      .degraded (reverseGuessIter tb final_amount deduction margin iters final_amount) := by
  cases h : tb.reverse_tax final_amount deduction margin ε iters with
  | converged g => exact Or.inl ⟨g, rfl⟩
  | degraded g =>
    right
    have h' : reverseTaxLoop tb final_amount deduction margin ε iters final_amount
        = .degraded g := h
    have hiter := reverseTaxLoop_degraded_eq tb final_amount deduction margin ε
      iters final_amount g h'
    rw [hiter]

/-- The `find_optimal_distribution` model unfolded: the division-by-zero guard,
then the iteration loop seeded with `prior_guess = 0`,
`prior_ending = starting_amount`. -/
lemma find_optimal_distribution_def (S r : ℚ) (years : ℕ) (gamma kappa : ℚ)
    (iters : ℕ) (ε : ℚ) :
    find_optimal_distribution S r years gamma kappa iters ε =
      if r ≠ 0 ∧ 1 / r + 1 = 0 then .divisionError
      else fodLoop S r ε (gamma * kappa)
        (if r = 0 then 0 else S / (1 / r + 1)) years iters 0 S := rfl

/-- Counterexample for C2 as stated: at `return_rate = -1` the floor-withdrawal
formula `starting_amount / (1 / return_rate + 1)` divides by zero, so the
Python function raises `ZeroDivisionError` before the first iteration — a
fourth terminal behaviour distinct from the claimed converged / diverged /
exhausted trichotomy. -/
theorem find_optimal_distribution_divzero_cex :
    find_optimal_distribution 100 (-1) 10 1 1 5 (1/100) = .divisionError ∧
    FodOutcome.divisionError ≠ FodOutcome.diverged ∧
    FodOutcome.divisionError ≠ FodOutcome.exhausted := by
  refine ⟨?_, by decide, by decide⟩
  rw [find_optimal_distribution_def, if_pos]
  exact ⟨by norm_num, by norm_num⟩

/-- Claim C2 (corrected).  For every `return_rate ≠ -1` (excluding the
division-by-zero input exhibited in the counterexample),
`find_optimal_distribution` has exactly the three claimed terminal outcomes:
it converges — returning a `dist` whose simulated final balance satisfies
`|igwad(S, years, dist, r)| < ε` — or it diverges, or it exhausts its
iteration budget; it never returns a value without the residual bound. -/
theorem find_optimal_distribution_outcomes (S r : ℚ) (years : ℕ)
    (gamma kappa : ℚ) (iters : ℕ) (ε : ℚ) (hr : r ≠ -1) :
    (∃ dist, find_optimal_distribution S r years gamma kappa iters ε
        = .converged dist ∧ |igwad S years dist r| < ε) ∨
    find_optimal_distribution S r years gamma kappa iters ε = .diverged ∨
    find_optimal_distribution S r years gamma kappa iters ε = .exhausted := by
  have hcond : ¬(r ≠ 0 ∧ 1 / r + 1 = 0) := by
    rintro ⟨hr0, hinv⟩
    apply hr
    field_simp at hinv
    linarith
  rw [find_optimal_distribution_def, if_neg hcond]
  cases h : fodLoop S r ε (gamma * kappa)
      (if r = 0 then 0 else S / (1 / r + 1)) years iters 0 S with
  | converged dist =>
    exact Or.inl ⟨dist, rfl, fodLoop_converged_residual _ _ _ _ _ _ _ _ _ _ h⟩
  | diverged => exact Or.inr (Or.inl rfl)
  | exhausted => exact Or.inr (Or.inr rfl)
  | divisionError => exact absurd h (fodLoop_ne_divisionError _ _ _ _ _ _ _ _ _)

/-- Witness for the amended C2 at a concrete input: `S = 100`, `r = 0`,
`years = 2`, calibration product `gamma * kappa = 2`, where the loop converges
in one iteration to the exact drawdown `dist = 50`. -/
theorem find_optimal_distribution_outcomes_witness :
    (0 : ℚ) ≠ -1 ∧
    ((∃ dist, find_optimal_distribution 100 0 2 2 1 5 (1/100)
        = .converged dist ∧ |igwad 100 2 dist 0| < 1/100) ∨
      find_optimal_distribution 100 0 2 2 1 5 (1/100) = .diverged ∨
      find_optimal_distribution 100 0 2 2 1 5 (1/100) = .exhausted) :=
  ⟨by norm_num, find_optimal_distribution_outcomes 100 0 2 2 1 5 (1/100) (by norm_num)⟩

/-- Claim C4 (confirmed).  When the fixed-point iteration of `reverse_tax`
converges within its budget (for a validly constructed bracket and
non-negative deduction, margin and target), the returned pre-tax amount `g`
round-trips through `tax`: `tax(g, d, m).remaining()` is within the solver's
`ε` of the requested after-tax amount. -/
theorem reverse_tax_round_trip {tb : TaxBracket} (hv : tb.valid) {x d m ε : ℚ}
    (hd : 0 ≤ d) (hm : 0 ≤ m) (hx : 0 ≤ x) (iters : ℕ) {g : ℚ}
    (h : tb.reverse_tax x d m ε iters = .converged g) :
    |(tb.tax g d m).remaining - x| < ε := by
  have h' : reverseTaxLoop tb x d m ε iters x = .converged g := h
  exact reverseTaxLoop_converged_residual (goodRanges_of_valid hv) hd hm hx iters x hx g h'

/-- Witness for C4 at a concrete input: flat 10% bracket, target `x = 90`,
Python defaults `ε = 1/100`, `iters = 20`; the iteration converges in four
steps to `g = 99.999` and `tax(g).remaining() = 89.9991` is within `ε` of 90. -/
theorem reverse_tax_round_trip_witness :
    flatB.valid ∧ (0 : ℚ) ≤ 0 ∧ (0 : ℚ) ≤ 90 ∧
      flatB.reverse_tax 90 0 0 (1/100) 20 = .converged (99999/1000) ∧
      |(flatB.tax (99999/1000) 0 0).remaining - 90| < 1/100 :=
  ⟨flatB_valid, by norm_num, by norm_num,
    by
      show reverseTaxLoop flatB 90 0 0 (1/100) 20 90 = _
      norm_num [reverseTaxLoop, TaxBracket.tax_eq, TaxResult.remaining, taxWalk,
        TaxRange.tax, TaxRange.amount_in_range, flatB, abs_of_nonneg],
    reverse_tax_round_trip flatB_valid (by norm_num) (by norm_num) (by norm_num) 20
      (by
        show reverseTaxLoop flatB 90 0 0 (1/100) 20 90 = _
        norm_num [reverseTaxLoop, TaxBracket.tax_eq, TaxResult.remaining, taxWalk,
          TaxRange.tax, TaxRange.amount_in_range, flatB, abs_of_nonneg])⟩

/-- Counterexample for C1 as stated: the bracket `zwB` with a zero-width
middle range `(100, 100]` passes every construction assert
(`upper_bound >= lower_bound` is not strict), yet at `full_amount = 150` the
walking evaluator stops at the zero-width range (`amount_in_range = 0` breaks
the loop) and reports `10`, while the binary-search evaluator correctly skips
it and reports `20`. -/
theorem fast_tax_disagrees_on_zero_width :
    zwB.valid ∧ zwB.fast_tax 150 0 0 ≠ some ((zwB.tax 150 0 0).tax_paid) := by
  refine ⟨zwB_valid, ?_⟩
  have h1 : (100 : WithTop ℚ) < (150 : WithTop ℚ) := by
    exact_mod_cast (by norm_num : (100 : ℚ) < 150)
  have hb : bisect_left zwB.tax_ranges 150 = 2 := by
    norm_num [bisect_left, zwB, h1, not_top_lt]
  have htax : (zwB.tax 150 0 0).tax_paid = 10 := by
    norm_num [TaxBracket.tax_eq, taxWalk, TaxRange.tax, TaxRange.amount_in_range, zwB]
  have hfast : zwB.fast_tax 150 0 0 = some 20 := by
    rw [TaxBracket.fast_tax_def, if_neg (by norm_num), if_neg (by norm_num),
      TaxBracket.fast_tax0_def, if_neg (by norm_num),
      show (150 : ℚ) - 0 = 150 from by norm_num, hb]
    norm_num [TaxBracket.cum_range_tax_amounts, cumsum, TaxRange.full_range_tax, zwB,
      List.get?_cons_succ, List.get?_cons_zero]
  rw [htax, hfast]
  norm_num

/-- Claim C1 (corrected).  On every validly constructed bracket whose ranges
additionally have strictly increasing bounds (`lower_bound < upper_bound`, as
the `TaxRange` docstring demands), `fast_tax` agrees exactly (in exact
arithmetic) with `tax(...).tax_paid` for all amounts, deductions and margins;
with a zero-width range the two evaluators disagree (see the
counterexample). -/
theorem fast_tax_eq_tax_paid {tb : TaxBracket} (hv : tb.valid)
    (hs : ∀ tr ∈ tb.tax_ranges, (tr.lower_bound : WithTop ℚ) < tr.upper_bound)
    (a d m : ℚ) :
    tb.fast_tax a d m = some ((tb.tax a d m).tax_paid) := by
  rw [tb.fast_tax_def, tb.tax_tax_paid_cases]
  split_ifs with h1 h2
  · rfl
  · rw [tb.fast_tax0_eq hv hs (m + a) d, tb.fast_tax0_eq hv hs m d]
    show some ((tb.tax0 (m + a) d).tax_paid - (tb.tax0 m d).tax_paid) = _
    rw [add_comm m a]
  · push_neg at h1
    have hm0 : m = 0 := le_antisymm (not_lt.mp h2) h1.2
    subst hm0
    rw [tb.fast_tax0_eq hv hs a d, tb.tax0_tax_paid,
      if_neg (not_le.mpr (by linarith [h1.1]))]

/-- Witness for the amended C1 at a concrete input: the strict two-range
bracket at `full_amount = 150`, where both evaluators yield `20`. -/
theorem fast_tax_eq_tax_paid_witness :
    twoB.valid ∧
      (∀ tr ∈ twoB.tax_ranges, (tr.lower_bound : WithTop ℚ) < tr.upper_bound) ∧
      twoB.fast_tax 150 0 0 = some ((twoB.tax 150 0 0).tax_paid) :=
  ⟨twoB_valid, twoB_strict, fast_tax_eq_tax_paid twoB_valid twoB_strict 150 0 0⟩
